import Mathlib

/-!
Verification of `onlinejudge_verify/languages/rust.py`: a shallow embedding of
the Rust dependency-resolution component (`_list_dependencies_by_crate`,
`_cargo_metadata`, `_find_target`, `_find_bin_or_example_bin` and their
helpers), together with theorems settling the specification claims.

External effects (filesystem existence tests, the `cargo metadata` process,
`cargo check`, the `.d` files produced by the build, and the `cargo udeps`
process) are modelled by an explicit environment record; the functions are
translated statement by statement from the Python source.
-/

namespace OJV

/-- A POSIX path in the canonical form `pathlib.PurePosixPath` keeps it:
an absolute flag plus the component list (without the root).  `pathlib`
normalises away empty and `.` segments, so canonical values have no such
components; equality and ordering of `pathlib.Path` objects are equality and
lexicographic ordering of their string forms, which for canonical values
coincide with this structure's. -/
structure Path where
  absolute : Bool
  parts : List String
deriving DecidableEq, Repr

/-- String form, as `str(path)` renders a `PurePosixPath`. -/
def Path.toStr (p : Path) : String :=
  if p.absolute then "/" ++ String.intercalate "/" p.parts
  else if p.parts = [] then "." else String.intercalate "/" p.parts

/-- `pathlib`'s `.parts` tuple: for an absolute path it starts with `"/"`. -/
def Path.partsPy (p : Path) : List String :=
  if p.absolute then "/" :: p.parts else p.parts

/-- `PurePosixPath.joinpath`: an absolute right operand replaces the left. -/
def Path.join (p q : Path) : Path :=
  if q.absolute then q else { absolute := p.absolute, parts := p.parts ++ q.parts }

/-- `PurePosixPath.parent`: drop the last component; the root (and the
relative root `.`) is its own parent. -/
def Path.parent (p : Path) : Path :=
  if p.parts = [] then p else { absolute := p.absolute, parts := p.parts.dropLast }

/-- Auxiliary for `Path.parents`: the proper ancestor chain of the reversed
component list (reversal makes dropping the last component structural). -/
def parentsRev (absolute : Bool) : List String → List Path
  | [] => []
  | _ :: rest => { absolute := absolute, parts := rest.reverse } :: parentsRev absolute rest

/-- `pathlib`'s `.parents` sequence: `p.parent, p.parent.parent, …` down to
the root `/` (or the relative root `.`). -/
def Path.parents (p : Path) : List Path :=
  parentsRev p.absolute p.parts.reverse

/-- The relative path `Cargo.toml`. -/
def cargoTomlRel : Path := { absolute := false, parts := ["Cargo.toml"] }

/-- Split a character list at every occurrence of `c` (like
`str.split(c)` for a one-character separator). -/
def splitCh (c : Char) (l : List Char) : List (List Char) :=
  l.foldr
    (fun a acc =>
      match acc with
      | [] => [[a]]
      | g :: gs => if a = c then [] :: g :: gs else (a :: g) :: gs)
    [[]]

/-- `pathlib.PurePosixPath(s)`: absolute iff the string starts with `/`;
empty and `.` segments are dropped. -/
def parsePath (s : String) : Path :=
  { absolute := s.data.head? = some '/'
    parts := ((splitCh '/' s.data).map (fun l => String.mk l)).filter
      (fun c => c ≠ "" && c ≠ ".") }

/-- `str.rstrip(':')`: drop every trailing colon. -/
def rstripColon (s : String) : String :=
  String.mk ((s.data.reverse.dropWhile (fun c => c = ':')).reverse)

/-- `str.endswith(':')`. -/
def endsWithColon (s : String) : Bool :=
  s.data.getLast? = some ':'

/-- `Path.resolve()` restricted to the symlink-free model: `..` pops a
component (`dropLast` on the root is the root, matching POSIX `/..`). -/
def Path.resolve (p : Path) : Path :=
  { absolute := p.absolute
    parts := p.parts.foldl (fun acc c => if c = ".." then acc.dropLast else acc ++ [c]) [] }

/-- The file-existence test `path.exists()`, over the modelled set of
existing files. -/
def pathExists (fs : List Path) (p : Path) : Bool :=
  fs.any (fun q => q = p)

/-- `str.startswith`, on the character lists. -/
def strStartsWith (s p : String) : Bool := p.data.isPrefixOf s.data

/-- `str.endswith`, on the character lists. -/
def strEndsWith (s p : String) : Bool := p.data.reverse.isPrefixOf s.data.reverse

/-- Lexicographic (code-point) order on character lists, as Python compares
strings. -/
def charListLe : List Char → List Char → Bool
  | [], _ => true
  | _ :: _, [] => false
  | a :: as, b :: bs => if a = b then charListLe as bs else decide (a < b)

/-- Lexicographic order on paths, as Python compares `pathlib.Path` values
(by their string form). -/
def pathLe (p q : Path) : Prop := charListLe p.toStr.data q.toStr.data = true

instance : DecidableRel pathLe := fun p q =>
  inferInstanceAs (Decidable (charListLe p.toStr.data q.toStr.data = true))

/-- Python's `sorted` on a list of paths: a stable sort by the path order
(insertion sort is stable, like Python's sort). -/
def pySorted (l : List Path) : List Path := l.insertionSort pathLe

deriving instance DecidableEq for Except

/-- The Python exceptions the component can raise. -/
inductive PyErr where
  /-- `RuntimeError(msg)`. -/
  | runtimeError (msg : String)
  /-- `subprocess.CalledProcessError` from `subprocess.run(..., check=True)`. -/
  | calledProcessError
  /-- `KeyError(key)` from a `dict` lookup. -/
  | keyError (key : String)
  /-- `IndexError` from `parts[-1]` on an empty tuple. -/
  | indexError
  /-- `json.loads` failure, or the loaded document lacking an
  `unused_deps` mapping. -/
  | jsonError
deriving DecidableEq, Repr

/-- One element of a package's `targets` list in the `cargo metadata` JSON,
with the keys the source reads.  `cargo metadata` emits the key
`crate_types` (plural); it emits no `crate_type` key, so in metadata produced
by cargo the field `crate_type` below (the value of that key when present) is
`none`. -/
structure Target where
  kind : List String
  crate_types : List String
  name : String
  src_path : Path
  crate_type : Option String
deriving DecidableEq, Repr

/-- One element of a package's `dependencies` list: the source only reads its
`rename` key (`null` when the dependency is not aliased). -/
structure Dependency where
  rename : Option String
deriving DecidableEq, Repr

/-- One element of `metadata['packages']`, with the keys the source reads.
`source` is `null` (here `none`) for path/workspace-local packages and a
registry/remote description string otherwise. -/
structure Package where
  id : String
  name : String
  manifest_path : Path
  targets : List Target
  dependencies : List Dependency
  source : Option String
deriving DecidableEq, Repr

/-- One element of a resolve-node dependency's `dep_kinds` list; `kind` is
`null` for a normal dependency, `"build"` or `"dev"` otherwise. -/
structure DepKind where
  kind : Option String
deriving DecidableEq, Repr

/-- One element of a resolve node's `deps` list. -/
structure NodeDep where
  name : String
  pkg : String
  dep_kinds : List DepKind
deriving DecidableEq, Repr

/-- One element of `metadata['resolve']['nodes']`. -/
structure Node where
  id : String
  deps : List NodeDep
deriving DecidableEq, Repr

/-- The parsed `cargo metadata` document, restricted to the keys the source
reads. -/
structure Metadata where
  packages : List Package
  nodes : List Node
  workspace_root : Path
  target_directory : Path
deriving DecidableEq, Repr

/-- A `.d` file in `target_directory/debug/deps`: its file name, its
`st_mtime_ns`, and its text content split into lines (as
`str.splitlines` yields them). -/
structure DFile where
  fileName : String
  mtime : Nat
  lines : List String
deriving DecidableEq, Repr

/-- One value of the `unused_deps` mapping in the `cargo udeps` JSON
report, with the keys the source reads. -/
structure UnusedDep where
  manifest_path : Path
  normal : List String
  build : List String
deriving DecidableEq, Repr

/-- Python truthiness of an optional string: `None` and `''` are falsy. -/
def strFalsy : Option String → Bool
  | none => true
  | some s => s = ""

/-- `_is_lib`. -/
def is_lib (target : Target) : Bool :=
  target.kind = ["lib"]

/-- `_is_bin`. -/
def is_bin (target : Target) : Bool :=
  target.kind = ["bin"]

/-- `_is_bin_or_example_bin`. -/
def is_bin_or_example_bin (target : Target) : Bool :=
  is_bin target || (target.kind = ["example"] && target.crate_types = ["bin"])

/-- `_find_target`: scan packages and their targets in order, returning the
first (package, target) whose `src_path` equals the queried path. -/
def find_target (metadata : Metadata) (src_path : Path) : Option (Package × Target) :=
  metadata.packages.findSome? fun package =>
    (package.targets.find? fun target => target.src_path = src_path).map
      fun target => (package, target)

/-- `_find_bin_or_example_bin`.  In the example-but-not-binary branch the
source formats `target["crate_type"]` into the message; that key is read from
the metadata (field `crate_type`), and its absence is a `KeyError`. -/
def find_bin_or_example_bin (metadata : Metadata) (src_path : Path) :
    Except PyErr Target :=
  match find_target metadata src_path with
  | none => .error (.runtimeError (src_path.toStr ++ " is not a main source file of any target"))
  | some (_, target) =>
    if is_bin_or_example_bin target then .ok target
    else if target.kind = ["example"] && target.crate_types ≠ ["bin"] then
      match target.crate_type with
      | some ct =>
        .error (.runtimeError ("`" ++ target.name ++ "` is a `example` target but its `crate_type` is `" ++ ct ++ "`"))
      | none => .error (.keyError "crate_type")
    else .error (.runtimeError ("`" ++ target.name ++ "` is not a `bin` or `example` target"))

/-- `find_root_manifest_for_wd` (the inner helper of `_cargo_metadata`):
walk `cwd` and its ancestors, returning the first `Cargo.toml` that
exists. -/
def find_root_manifest_for_wd (fs : List Path) (cwd : Path) : Option Path :=
  (cwd :: cwd.parents).findSome? fun directory =>
    let manifest_path := directory.join cargoTomlRel
    if pathExists fs manifest_path then some manifest_path else none

/-- The state of one `functools.lru_cache` instance for the inner
`cargo_metadata` helper: cached entries keyed by manifest path, plus the
number of times the underlying `cargo metadata` process was spawned. -/
structure MetadataCache where
  entries : List (Path × Metadata)
  fetches : Nat
deriving Repr

/-- Get-or-fetch on an `lru_cache` instance. -/
def cacheGetOrFetch (fetch : Path → Metadata) (c : MetadataCache)
    (manifest_path : Path) : Metadata × MetadataCache :=
  match c.entries.find? (fun e => e.1 = manifest_path) with
  | some e => (e.2, c)
  | none =>
    let m := fetch manifest_path
    (m, ⟨c.entries ++ [(manifest_path, m)], c.fetches + 1⟩)

/-- `_cargo_metadata(cwd)`.  The `lru_cache`-decorated `cargo_metadata`
helper is defined inside the function body, so every call decorates a fresh
function and therefore starts from a fresh empty cache.  `fetch` models the
`cargo metadata` subprocess for a given manifest path; the returned number is
how many times this call spawned it. -/
def cargo_metadata (fs : List Path) (fetch : Path → Metadata) (cwd : Path) :
    Except PyErr (Metadata × Nat) :=
  match find_root_manifest_for_wd fs cwd with
  | none =>
    .error (.runtimeError ("Could not find `Cargo.toml` in `" ++ cwd.toStr ++ "` or any parent directory"))
  | some manifest_path =>
    let r := cacheGetOrFetch fetch ⟨[], 0⟩ manifest_path
    .ok (r.1, r.2.fetches)

/-- A Python `dict` with string keys, as an insertion-ordered association
list: inserting an existing key overwrites its value in place, a new key is
appended, and `values()` iterates in that order. -/
abbrev PyDict (α : Type) := List (String × α)

/-- `d[k] = v`. -/
def dictInsert {α : Type} (d : PyDict α) (k : String) (v : α) : PyDict α :=
  if d.any (fun e => e.1 = k) then d.map (fun e => if e.1 = k then (k, v) else e)
  else d ++ [(k, v)]

/-- `d.get(k)` (and `d[k]`, whose failure is a `KeyError`). -/
def dictGet? {α : Type} (d : PyDict α) (k : String) : Option α :=
  (d.find? (fun e => e.1 = k)).map (fun e => e.2)

/-- `d.values()`, in insertion order. -/
def dictValues {α : Type} (d : PyDict α) : List α := d.map (fun e => e.2)

/-- `set.add` on a Python set, modelled as a duplicate-free list (only
membership is ever observed). -/
def setAdd (s : List String) (x : String) : List String :=
  if s.contains x then s else s ++ [x]

/-- `packages_by_id = {package['id']: package for package in metadata['packages']}`. -/
def packages_by_id_of (metadata : Metadata) : PyDict Package :=
  metadata.packages.foldl (fun d p => dictInsert d p.id p) []

/-- The `dep_kinds` condition of line 104:
`not dep_kind['kind'] or dep_kind['kind'] == 'build'`. -/
def depKindNormalOrBuild (dk : DepKind) : Bool :=
  strFalsy dk.kind || dk.kind = some "build"

/-- The node-dependency candidates scanned on line 104:
deps of every resolve node whose id is the package's id. -/
def candNodeDeps (metadata : Metadata) (package : Package) : List NodeDep :=
  ((metadata.nodes.filter (fun n => n.id = package.id)).map Node.deps).flatten

/-- The dict comprehension of line 104: insert `name ↦ pkg` for every
candidate whose package is local (falsy `source`) and has a normal or build
dep kind; the `packages_by_id` lookup inside the condition can raise
`KeyError`. -/
def buildNodeDeps (pbid : PyDict Package) :
    List NodeDep → PyDict String → Except PyErr (PyDict String)
  | [], d => .ok d
  | nd :: rest, d =>
    match dictGet? pbid nd.pkg with
    | none => .error (.keyError nd.pkg)
    | some p =>
      buildNodeDeps pbid rest
        (if strFalsy p.source && nd.dep_kinds.any depKindNormalOrBuild then
          dictInsert d nd.name nd.pkg
        else d)

/-- `normal_build_node_deps` after lines 103–106, including the implicit
self-library insertion for binary-like targets of packages that also expose a
library. -/
def normal_build_node_deps_of (metadata : Metadata) (package : Package)
    (target : Target) : Except PyErr (PyDict String) :=
  match buildNodeDeps (packages_by_id_of metadata) (candNodeDeps metadata package) [] with
  | .error e => .error e
  | .ok d =>
    .ok (if is_bin_or_example_bin target && package.targets.any is_lib then
        dictInsert d package.name package.id
      else d)

/-- The rename set of line 110: truthy `rename` values of the package's
declared dependencies. -/
def renamesOf (package : Package) : List String :=
  (package.dependencies.filterMap Dependency.rename).filter (fun s => s ≠ "")

/-- The name-based lookup of lines 124–126: walk the dict values, adding
every package id whose package name equals the flagged name. -/
def addByName (pbid : PyDict Package) (name_in_toml : String) :
    List String → List String → Except PyErr (List String)
  | [], acc => .ok acc
  | pid :: rest, acc =>
    match dictGet? pbid pid with
    | none => .error (.keyError pid)
    | some p =>
      addByName pbid name_in_toml rest
        (if p.name = name_in_toml then setAdd acc pid else acc)

/-- Lines 121–126 for one flagged name: resolve via the node-deps dict when
the name is a declared alias (a `KeyError` if the dict lacks it), otherwise
by package-name lookup over the dict values. -/
def addUnusedName (pbid : PyDict Package) (deps : PyDict String)
    (renames : List String) (acc : List String) (name_in_toml : String) :
    Except PyErr (List String) :=
  if renames.contains name_in_toml then
    match dictGet? deps name_in_toml with
    | none => .error (.keyError name_in_toml)
    | some pid => .ok (setAdd acc pid)
  else addByName pbid name_in_toml (dictValues deps) acc

/-- Line 120's loop over `[*unused_dep['normal'], *unused_dep['build']]`. -/
def addUnusedNames (pbid : PyDict Package) (deps : PyDict String)
    (renames : List String) :
    List String → List String → Except PyErr (List String)
  | [], acc => .ok acc
  | n :: rest, acc =>
    match addUnusedName pbid deps renames acc n with
    | .error e => .error e
    | .ok acc' => addUnusedNames pbid deps renames rest acc'

/-- Lines 118–126: process the report entries, restricted to those whose
manifest path equals this package's manifest path. -/
def processUnusedDeps (pbid : PyDict Package) (deps : PyDict String)
    (renames : List String) (manifest_path : Path) :
    List UnusedDep → List String → Except PyErr (List String)
  | [], acc => .ok acc
  | e :: rest, acc =>
    if e.manifest_path = manifest_path then
      match addUnusedNames pbid deps renames (e.normal ++ e.build) acc with
      | .error err => .error err
      | .ok acc' => processUnusedDeps pbid deps renames manifest_path rest acc'
    else processUnusedDeps pbid deps renames manifest_path rest acc

/-- Lines 108–126: the `unused_packages` set.  `udepsWhich` models
`shutil.which('cargo-udeps')`; `udepsParsed` is `some entries` when the
analyzer's standard output parses as a JSON document with an `unused_deps`
mapping (whose values are `entries`) and `none` otherwise.  The first
component counts how many times the analyzer process was spawned. -/
def unused_packages_of (pbid : PyDict Package) (package : Package)
    (target : Target) (deps : PyDict String) (udepsWhich : Bool)
    (udepsParsed : Option (List UnusedDep))
    (cargo_udeps_toolchain : Option String) :
    Nat × Except PyErr (List String) :=
  match cargo_udeps_toolchain with
  | none => (0, .ok [])
  | some _ =>
    if is_bin_or_example_bin target then
      let renames := renamesOf package
      if udepsWhich = false then
        (0, .error (.runtimeError "`cargo-udeps` not in $PATH"))
      else
        match udepsParsed with
        | none => (1, .error .jsonError)
        | some entries =>
          (1, processUnusedDeps pbid deps renames package.manifest_path entries [])
    else (0, .ok [])

/-- Lines 128–132: append the `src_path` of every `lib`-kind target of every
non-unused package in the dict values. -/
def libExpand (pbid : PyDict Package) (unused : List String) :
    List String → List Path → Except PyErr (List Path)
  | [], acc => .ok acc
  | pid :: rest, acc =>
    if unused.contains pid then libExpand pbid unused rest acc
    else
      match dictGet? pbid pid with
      | none => .error (.keyError pid)
      | some p =>
        libExpand pbid unused rest (acc ++ (p.targets.filter is_lib).map Target.src_path)

/-- The glob pattern `f'{target["name"].replace("-", "_")}-*.d'` of line 63,
as a predicate on file names (names contain no `/`, and the fixed prefix
cannot overlap the fixed suffix, so the glob is prefix-plus-suffix
matching). -/
def dFilePattern (targetName : String) (fileName : String) : Bool :=
  let stem := String.mk (targetName.data.map (fun c => if c = '-' then '_' else c))
  strStartsWith fileName (stem ++ "-") && strEndsWith fileName ".d"

/-- Descending-`st_mtime_ns` order for line 62's
`sorted(..., key=..., reverse=True)`. -/
def mtimeGe (a b : DFile) : Prop := b.mtime ≤ a.mtime

instance : DecidableRel mtimeGe := fun a b =>
  inferInstanceAs (Decidable (b.mtime ≤ a.mtime))

/-- Line 62's stable sort of the matching `.d` files, most recently modified
first. -/
def sortDFilesDesc (l : List DFile) : List DFile := l.insertionSort mtimeGe

/-- Line 96: the source-path entries of one `.d` file — the non-absolute
lines ending in `:`, stripped of trailing colons, joined to the workspace
root and resolved. -/
def parseDFile (workspace_root : Path) (f : DFile) : List Path :=
  (f.lines.filter fun line =>
      endsWithColon line && !(parsePath (rstripColon line)).absolute).map
    fun line => (workspace_root.join (parsePath (rstripColon line))).resolve

/-- Lines 67–99: scan the sorted `.d` files, accepting the first whose
leading entry equals the queried path and returning its remaining entries;
also counts how many files were opened. -/
def scanDFiles (workspace_root : Path) (path : Path) :
    List DFile → Option (List Path) × Nat
  | [] => (none, 0)
  | f :: rest =>
    let rs := parseDFile workspace_root f
    if rs.take 1 = [path] then (some (rs.drop 1), 1)
    else
      let r := scanDFiles workspace_root path rest
      (r.1, r.2 + 1)

/-- Line 44's warning text. -/
def generatedWarning (path : Path) : String :=
  "This is a generated file!: " ++ path.toStr

/-- Line 101's warning text. -/
def noDFileWarning (path : Path) : String :=
  "no `.d` file that contains `" ++ path.toStr ++ "`"

/-- Lines 42–45: the generated-file loop over `path.parents`.  The
`parts[-1]` access happens only after the manifest-existence test succeeds,
and raises `IndexError` on the empty parts tuple of the relative root. -/
def generatedLoop (fs : List Path) : List Path → Except PyErr Bool
  | [] => .ok false
  | parent :: rest =>
    if pathExists fs (parent.parent.join cargoTomlRel) then
      match parent.partsPy.getLast? with
      | none => .error .indexError
      | some last =>
        if last = "target" then .ok true else generatedLoop fs rest
    else generatedLoop fs rest

/-- Observable side effects of one `_list_dependencies_by_crate` call: how
many `cargo metadata`, `cargo check` and `cargo udeps` processes were
spawned, how many `.d` files were opened, and the warnings logged. -/
structure Trace where
  metadataFetches : Nat
  checkRuns : Nat
  dFilesOpened : Nat
  udepsRuns : Nat
  warnings : List String
deriving DecidableEq, Repr

/-- The external world of one call: the existing files, what
`cargo metadata` would return for each manifest path, whether `cargo check`
exits 0, the contents of `target_directory/debug/deps`, whether
`cargo-udeps` is on `$PATH`, and the exit status and parsed standard output
of the `cargo udeps` process. -/
structure Env where
  fs : List Path
  metadataFor : Path → Metadata
  checkOk : Bool
  dFiles : List DFile
  udepsWhich : Bool
  udepsReturncode : Int
  udepsParsed : Option (List UnusedDep)

/-- Lines 54–133: the remainder of `_list_dependencies_by_crate` once
`_find_target` has found the owning (package, target). -/
def resolveFoundTarget (metadataFetches : Nat) (checkOk : Bool)
    (dFiles : List DFile) (udepsWhich : Bool)
    (udepsParsed : Option (List UnusedDep)) (metadata : Metadata)
    (package : Package) (target : Target) (path : Path)
    (cargo_udeps_toolchain : Option String) :
    Trace × Except PyErr (List Path) :=
  if checkOk = false then
    (⟨metadataFetches, 1, 0, 0, []⟩, .error .calledProcessError)
  else
    let scanned := scanDFiles metadata.workspace_root path
      (sortDFilesDesc (dFiles.filter fun f => dFilePattern target.name f.fileName))
    let warns : List String :=
      match scanned.1 with
      | some _ => []
      | none => [noDFileWarning path]
    let ret : List Path := path :: scanned.1.getD []
    let pbid := packages_by_id_of metadata
    match normal_build_node_deps_of metadata package target with
    | .error e => (⟨metadataFetches, 1, scanned.2, 0, warns⟩, .error e)
    | .ok deps =>
      let u := unused_packages_of pbid package target deps udepsWhich
        udepsParsed cargo_udeps_toolchain
      match u.2 with
      | .error e => (⟨metadataFetches, 1, scanned.2, u.1, warns⟩, .error e)
      | .ok unused =>
        match libExpand pbid unused (dictValues deps) [] with
        | .error e => (⟨metadataFetches, 1, scanned.2, u.1, warns⟩, .error e)
        | .ok libs =>
          (⟨metadataFetches, 1, scanned.2, u.1, warns⟩, .ok (pySorted (ret ++ libs)))

/-- `_list_dependencies_by_crate(path, basedir=..., cargo_udeps_toolchain=...)`. -/
def list_dependencies_by_crate (env : Env) (path0 : Path) (basedir : Path)
    (cargo_udeps_toolchain : Option String) :
    Trace × Except PyErr (List Path) :=
  let path := basedir.join path0
  match generatedLoop env.fs path.parents with
  | .error e => (⟨0, 0, 0, 0, []⟩, .error e)
  | .ok true => (⟨0, 0, 0, 0, [generatedWarning path]⟩, .ok [path])
  | .ok false =>
    match cargo_metadata env.fs env.metadataFor path.parent with
    | .error e => (⟨0, 0, 0, 0, []⟩, .error e)
    | .ok (metadata, n) =>
      match find_target metadata path with
      | none => (⟨n, 0, 0, 0, []⟩, .ok [path])
      | some (package, target) =>
        resolveFoundTarget n env.checkOk env.dFiles env.udepsWhich
          env.udepsParsed metadata package target path cargo_udeps_toolchain


/-! ### Concrete workspaces used for witnesses and counterexamples -/

/-- The workspace root `/w`. -/
def wRoot : Path := ⟨true, ["w"]⟩

/-- `/w/Cargo.toml`. -/
def wManifest : Path := ⟨true, ["w", "Cargo.toml"]⟩

/-- `/w/src/main.rs`. -/
def wMain : Path := ⟨true, ["w", "src", "main.rs"]⟩

/-- `/w/src/foo.rs`. -/
def wFoo : Path := ⟨true, ["w", "src", "foo.rs"]⟩

/-- The binary target of the `app` package. -/
def appTargetBin : Target :=
  { kind := ["bin"], crate_types := ["bin"], name := "app", src_path := wMain,
    crate_type := none }

/-- A one-package workspace. -/
def appPkg : Package :=
  { id := "app", name := "app", manifest_path := wManifest,
    targets := [appTargetBin], dependencies := [], source := none }

/-- Metadata of the one-package workspace. -/
def mdPlain : Metadata :=
  { packages := [appPkg], nodes := [{ id := "app", deps := [] }],
    workspace_root := wRoot, target_directory := ⟨true, ["w", "target"]⟩ }

/-- A `.d` file whose remaining entries repeat `src/foo.rs`. -/
def dupDFile : DFile :=
  { fileName := "app-1a2b.d", mtime := 5,
    lines := ["src/main.rs:", "src/foo.rs:", "src/foo.rs:"] }

/-- Environment in which the matched dependency artifact repeats an entry. -/
def envDup : Env :=
  { fs := [wManifest], metadataFor := fun _ => mdPlain, checkOk := true,
    dFiles := [dupDFile], udepsWhich := false, udepsReturncode := 0,
    udepsParsed := none }

/-- Environment with no dependency artifacts at all. -/
def envNoD : Env :=
  { fs := [wManifest], metadataFor := fun _ => mdPlain, checkOk := true,
    dFiles := [], udepsWhich := false, udepsReturncode := 0, udepsParsed := none }

/-- Library target of the local package `foo`. -/
def fooLib : Target :=
  { kind := ["lib"], crate_types := ["lib"], name := "foo",
    src_path := ⟨true, ["w", "foo", "src", "lib.rs"]⟩, crate_type := none }

/-- The local package `foo`, depended on under the alias `bar`. -/
def fooPkg : Package :=
  { id := "foo-id", name := "foo", manifest_path := ⟨true, ["w", "foo", "Cargo.toml"]⟩,
    targets := [fooLib], dependencies := [], source := none }

/-- Library target of the local package `baz`. -/
def bazLib : Target :=
  { kind := ["lib"], crate_types := ["lib"], name := "baz",
    src_path := ⟨true, ["w", "baz", "src", "lib.rs"]⟩, crate_type := none }

/-- The local package `baz`. -/
def bazPkg : Package :=
  { id := "baz-id", name := "baz", manifest_path := ⟨true, ["w", "baz", "Cargo.toml"]⟩,
    targets := [bazLib], dependencies := [], source := none }

/-- The `app` package declaring `foo` (renamed to `bar`) and `baz` as
path-local dependencies. -/
def appPkgDeps : Package :=
  { id := "app", name := "app", manifest_path := wManifest,
    targets := [appTargetBin],
    dependencies := [{ rename := some "bar" }, { rename := none }], source := none }

/-- Metadata of the three-package workspace. -/
def mdDeps : Metadata :=
  { packages := [appPkgDeps, fooPkg, bazPkg],
    nodes := [{ id := "app", deps := [
      { name := "bar", pkg := "foo-id", dep_kinds := [{ kind := none }] },
      { name := "baz", pkg := "baz-id", dep_kinds := [{ kind := none }] }] }],
    workspace_root := wRoot, target_directory := ⟨true, ["w", "target"]⟩ }

/-- A `cargo udeps` report entry flagging the alias `bar` as unused for
`/w/Cargo.toml`. -/
def udepsEntry : UnusedDep :=
  { manifest_path := wManifest, normal := ["bar"], build := [] }

/-- An example target whose `crate_types` is `["lib"]` (and, as cargo
metadata emits, no `crate_type` key). -/
def exLibTarget : Target :=
  { kind := ["example"], crate_types := ["lib"], name := "ex1",
    src_path := ⟨true, ["w", "examples", "ex1.rs"]⟩, crate_type := none }

/-- Package owning only the example-but-library-shaped target. -/
def exPkg : Package :=
  { id := "e", name := "e", manifest_path := wManifest,
    targets := [exLibTarget], dependencies := [], source := none }

/-- Metadata owning only the example-but-library-shaped target. -/
def mdExampleLib : Metadata :=
  { packages := [exPkg], nodes := [], workspace_root := wRoot,
    target_directory := ⟨true, ["w", "target"]⟩ }

/-- A test-kind target. -/
def testTarget : Target :=
  { kind := ["test"], crate_types := ["lib"], name := "t",
    src_path := ⟨true, ["w", "tests", "t.rs"]⟩, crate_type := none }

/-- Package owning only the test-kind target. -/
def testPkg : Package :=
  { id := "e", name := "e", manifest_path := wManifest,
    targets := [testTarget], dependencies := [], source := none }

/-- Metadata owning only the test-kind target. -/
def mdTestKind : Metadata :=
  { packages := [testPkg], nodes := [], workspace_root := wRoot,
    target_directory := ⟨true, ["w", "target"]⟩ }

/-! ## Lemmas -/

theorem charListLe_total : ∀ a b, charListLe a b = true ∨ charListLe b a = true
  | [], _ => Or.inl rfl
  | _ :: _, [] => Or.inr rfl
  | a :: as, b :: bs => by
    by_cases hab : a = b
    · subst hab
      simpa [charListLe] using charListLe_total as bs
    · rcases lt_or_gt_of_ne hab with h | h

      · exact Or.inl (by simp [charListLe, hab, h])
      · exact Or.inr (by simp [charListLe, Ne.symm hab, h])

theorem charListLe_trans :
    ∀ a b c, charListLe a b = true → charListLe b c = true → charListLe a c = true
  | [], _, _, _, _ => rfl
  | _ :: _, [], _, h1, _ => by simp [charListLe] at h1
  | _ :: _, _ :: _, [], _, h2 => by simp [charListLe] at h2
  | a :: as, b :: bs, c :: cs, h1, h2 => by
    by_cases hab : a = b <;> by_cases hbc : b = c
    · subst hab; subst hbc
      simp only [charListLe, if_pos rfl] at h1 h2 ⊢
      exact charListLe_trans as bs cs h1 h2
    · subst hab
      simp only [charListLe, if_pos rfl, if_neg hbc, decide_eq_true_eq] at h2 ⊢
      simp [charListLe, ne_of_lt h2, h2]
    · subst hbc
      simp only [charListLe, if_neg hab, decide_eq_true_eq] at h1
      simp [charListLe, hab, h1]
    · simp only [charListLe, if_neg hab, if_neg hbc, decide_eq_true_eq] at h1 h2
      have hac := lt_trans h1 h2
      simp [charListLe, ne_of_lt hac, hac]

instance : IsTotal Path pathLe := ⟨fun a b => charListLe_total a.toStr.data b.toStr.data⟩

instance : IsTrans Path pathLe :=
  ⟨fun a b c h1 h2 => charListLe_trans a.toStr.data b.toStr.data c.toStr.data h1 h2⟩

instance : IsTotal DFile mtimeGe := ⟨fun a b => le_total b.mtime a.mtime⟩

instance : IsTrans DFile mtimeGe := ⟨fun _ _ _ h1 h2 => le_trans h2 h1⟩

theorem pySorted_sorted (l : List Path) : (pySorted l).Sorted pathLe :=
  List.sorted_insertionSort pathLe l

theorem mem_pySorted {q : Path} {l : List Path} : q ∈ pySorted l ↔ q ∈ l :=
  (List.perm_insertionSort pathLe l).mem_iff

theorem sortDFilesDesc_sorted (l : List DFile) : (sortDFilesDesc l).Sorted mtimeGe :=
  List.sorted_insertionSort mtimeGe l

theorem sortDFilesDesc_perm (l : List DFile) : List.Perm (sortDFilesDesc l) l :=
  List.perm_insertionSort mtimeGe l

theorem contains_iff_mem {l : List String} {x : String} : l.contains x = true ↔ x ∈ l := by
  simp

theorem setAdd_self_mem (s : List String) (x : String) : x ∈ setAdd s x := by
  unfold setAdd
  split
  · next h => exact contains_iff_mem.mp h
  · simp

theorem setAdd_mono {s : List String} {y : String} (h : y ∈ s) (x : String) :
    y ∈ setAdd s x := by
  unfold setAdd
  split
  · exact h
  · simp [h]

theorem mem_dictInsert {α : Type} {d : PyDict α} {k : String} {v : α} :
    ∀ pr ∈ dictInsert d k v, pr ∈ d ∨ pr = (k, v) := by
  intro pr hpr
  unfold dictInsert at hpr
  split at hpr
  · obtain ⟨e, he, hef⟩ := List.mem_map.mp hpr
    by_cases hk : e.1 = k
    · right
      simp only [if_pos hk] at hef
      exact hef.symm
    · left
      simp only [if_neg hk] at hef
      exact hef ▸ he
  · rcases List.mem_append.mp hpr with h | h
    · exact Or.inl h
    · right
      simpa using h

theorem self_mem_dictInsert {α : Type} (d : PyDict α) (k : String) (v : α) :
    (k, v) ∈ dictInsert d k v := by
  unfold dictInsert
  split
  · next h =>
    obtain ⟨e, he, hek⟩ := List.any_eq_true.mp h
    simp only [decide_eq_true_eq] at hek
    exact List.mem_map.mpr ⟨e, he, by simp [hek]⟩
  · exact List.mem_append.mpr (Or.inr (by simp))

theorem mem_dictInsert_of_ne {α : Type} {d : PyDict α} {pr : String × α} (hpr : pr ∈ d)
    {k : String} (v : α) (hne : pr.1 ≠ k) : pr ∈ dictInsert d k v := by
  unfold dictInsert
  split
  · exact List.mem_map.mpr ⟨pr, hpr, by simp [hne]⟩
  · exact List.mem_append.mpr (Or.inl hpr)

theorem mem_values_of_mem {α : Type} {d : PyDict α} {pr : String × α} (h : pr ∈ d) :
    pr.2 ∈ dictValues d :=
  List.mem_map.mpr ⟨pr, h, rfl⟩

theorem dictGet?_mem {α : Type} {d : PyDict α} {k : String} {v : α}
    (h : dictGet? d k = some v) : (k, v) ∈ d := by
  unfold dictGet? at h
  obtain ⟨e, he, hev⟩ := Option.map_eq_some'.mp h
  have hk := List.find?_some he
  have hm := List.mem_of_find?_eq_some he
  simp only [decide_eq_true_eq] at hk
  obtain ⟨e1, e2⟩ := e
  dsimp at hk hev
  subst hk
  subst hev
  exact hm

theorem mem_values_dictInsert {α : Type} {d : PyDict α} {k : String} {v : α} :
    ∀ x ∈ dictValues (dictInsert d k v), x ∈ dictValues d ∨ x = v := by
  intro x hx
  obtain ⟨pr, hpr, hx2⟩ := List.mem_map.mp hx
  rcases mem_dictInsert pr hpr with h | h
  · exact Or.inl (hx2 ▸ mem_values_of_mem h)
  · right
    rw [← hx2, h]

theorem packages_by_id_spec (md : Metadata) :
    ∀ pr ∈ packages_by_id_of md, pr.2 ∈ md.packages ∧ pr.1 = pr.2.id := by
  unfold packages_by_id_of
  suffices h : ∀ (ps : List Package) (d : PyDict Package),
      (∀ pr ∈ d, pr.2 ∈ md.packages ∧ pr.1 = pr.2.id) → (∀ p ∈ ps, p ∈ md.packages) →
      ∀ pr ∈ ps.foldl (fun d p => dictInsert d p.id p) d,
        pr.2 ∈ md.packages ∧ pr.1 = pr.2.id by
    exact h md.packages [] (by simp) (fun p hp => hp)
  intro ps
  induction ps with
  | nil =>
    intro d hd _ pr hpr
    exact hd pr hpr
  | cons p rest ih =>
    intro d hd hps pr hpr
    refine ih (dictInsert d p.id p) ?_ (fun q hq => hps q (by simp [hq])) pr hpr
    intro q hq
    rcases mem_dictInsert q hq with h | h
    · exact hd q h
    · subst h
      exact ⟨hps p (by simp), rfl⟩

theorem packages_by_id_lookup {md : Metadata} {pid : String} {p : Package}
    (h : dictGet? (packages_by_id_of md) pid = some p) :
    p ∈ md.packages ∧ pid = p.id := by
  have := packages_by_id_spec md (pid, p) (dictGet?_mem h)
  simpa using this

theorem buildNodeDeps_pairs {pbid : PyDict Package} :
    ∀ (cands : List NodeDep) (acc d : PyDict String),
      buildNodeDeps pbid cands acc = .ok d →
      ∀ pr ∈ d, pr ∈ acc ∨
        ∃ nd, nd ∈ cands ∧ pr = (nd.name, nd.pkg) ∧
          ∃ p, dictGet? pbid nd.pkg = some p ∧ strFalsy p.source = true ∧
            nd.dep_kinds.any depKindNormalOrBuild = true := by
  intro cands
  induction cands with
  | nil =>
    intro acc d h pr hpr
    simp only [buildNodeDeps, Except.ok.injEq] at h
    subst h
    exact Or.inl hpr
  | cons nd rest ih =>
    intro acc d h pr hpr
    cases hl : dictGet? pbid nd.pkg with
    | none => simp [buildNodeDeps, hl] at h
    | some p =>
      simp only [buildNodeDeps, hl] at h
      by_cases hc : (strFalsy p.source && nd.dep_kinds.any depKindNormalOrBuild) = true
      · rw [if_pos hc] at h
        rcases ih _ _ h pr hpr with hacc | ⟨nd', hnd', rest'⟩
        · rcases mem_dictInsert pr hacc with h2 | h2
          · exact Or.inl h2
          · simp only [Bool.and_eq_true] at hc
            exact Or.inr ⟨nd, by simp, h2, p, hl, hc.1, hc.2⟩
        · exact Or.inr ⟨nd', by simp [hnd'], rest'⟩
      · rw [if_neg hc] at h
        rcases ih _ _ h pr hpr with hacc | ⟨nd', hnd', rest'⟩
        · exact Or.inl hacc
        · exact Or.inr ⟨nd', by simp [hnd'], rest'⟩

theorem buildNodeDeps_preserves {pbid : PyDict Package} :
    ∀ (cands : List NodeDep) (acc d : PyDict String) (pr : String × String),
      buildNodeDeps pbid cands acc = .ok d → pr ∈ acc →
      (∀ nd ∈ cands, nd.name ≠ pr.1) → pr ∈ d := by
  intro cands
  induction cands with
  | nil =>
    intro acc d pr h hpr _
    simp only [buildNodeDeps, Except.ok.injEq] at h
    subst h
    exact hpr
  | cons nd rest ih =>
    intro acc d pr h hpr hname
    cases hl : dictGet? pbid nd.pkg with
    | none => simp [buildNodeDeps, hl] at h
    | some p =>
      simp only [buildNodeDeps, hl] at h
      have hrest : ∀ nd2 ∈ rest, nd2.name ≠ pr.1 := fun nd2 h2 => hname nd2 (by simp [h2])
      by_cases hc : (strFalsy p.source && nd.dep_kinds.any depKindNormalOrBuild) = true
      · rw [if_pos hc] at h
        refine ih _ _ pr h ?_ hrest
        exact mem_dictInsert_of_ne hpr nd.pkg (fun he => hname nd (by simp) he.symm)
      · rw [if_neg hc] at h
        exact ih _ _ pr h hpr hrest

theorem buildNodeDeps_inserts {pbid : PyDict Package} :
    ∀ (cands : List NodeDep) (acc d : PyDict String) (nd : NodeDep) (p : Package),
      buildNodeDeps pbid cands acc = .ok d → nd ∈ cands →
      dictGet? pbid nd.pkg = some p → strFalsy p.source = true →
      nd.dep_kinds.any depKindNormalOrBuild = true →
      (cands.map NodeDep.name).Nodup →
      (nd.name, nd.pkg) ∈ d := by
  intro cands
  induction cands with
  | nil =>
    intro acc d nd p _ hmem
    simp at hmem
  | cons nd0 rest ih =>
    intro acc d nd p h hmem hl hsrc hk hnodup
    rcases List.mem_cons.mp hmem with he | he
    · subst he
      cases hl0 : dictGet? pbid nd.pkg with
      | none => rw [hl0] at hl; cases hl
      | some p0 =>
        simp only [buildNodeDeps, hl0] at h
        rw [hl0] at hl
        cases hl
        rw [if_pos (by rw [hsrc, hk]; rfl)] at h
        refine buildNodeDeps_preserves rest _ d (nd.name, nd.pkg) h
          (self_mem_dictInsert acc nd.name nd.pkg) ?_
        intro nd2 h2 hne
        have := (List.nodup_cons.mp hnodup).1
        have hne2 : nd2.name = nd.name := hne
        exact this (hne2 ▸ List.mem_map.mpr ⟨nd2, h2, rfl⟩)
    · cases hl0 : dictGet? pbid nd0.pkg with
      | none => simp [buildNodeDeps, hl0] at h
      | some p0 =>
        simp only [buildNodeDeps, hl0] at h
        have hnodup2 := (List.nodup_cons.mp hnodup).2
        by_cases hc : (strFalsy p0.source && nd0.dep_kinds.any depKindNormalOrBuild) = true
        · rw [if_pos hc] at h
          exact ih _ _ nd p h he hl hsrc hk hnodup2
        · rw [if_neg hc] at h
          exact ih _ _ nd p h he hl hsrc hk hnodup2

theorem libExpand_mono {pbid : PyDict Package} {unused : List String} :
    ∀ (ids : List String) (acc libs : List Path),
      libExpand pbid unused ids acc = .ok libs → ∀ q ∈ acc, q ∈ libs := by
  intro ids
  induction ids with
  | nil =>
    intro acc libs h q hq
    simp only [libExpand, Except.ok.injEq] at h
    subst h
    exact hq
  | cons pid rest ih =>
    intro acc libs h q hq
    by_cases hu : unused.contains pid = true
    · rw [libExpand, if_pos hu] at h
      exact ih _ _ h q hq
    · cases hl : dictGet? pbid pid with
      | none =>
        rw [libExpand, if_neg hu, hl] at h
        exact absurd h (by simp)
      | some p =>
        simp only [libExpand, if_neg hu, hl] at h
        exact ih _ _ h q (List.mem_append.mpr (Or.inl hq))

theorem libExpand_mem {pbid : PyDict Package} {unused : List String} :
    ∀ (ids : List String) (acc libs : List Path),
      libExpand pbid unused ids acc = .ok libs →
      ∀ q ∈ libs,
        q ∈ acc ∨
        ∃ pid, pid ∈ ids ∧ pid ∉ unused ∧
          ∃ p, dictGet? pbid pid = some p ∧
            ∃ t, t ∈ p.targets ∧ is_lib t = true ∧ q = t.src_path := by
  intro ids
  induction ids with
  | nil =>
    intro acc libs h q hq
    simp only [libExpand, Except.ok.injEq] at h
    subst h
    exact Or.inl hq
  | cons pid rest ih =>
    intro acc libs h q hq
    by_cases hu : unused.contains pid = true
    · rw [libExpand, if_pos hu] at h
      rcases ih _ _ h q hq with h2 | ⟨pid', h1, h2, h3⟩
      · exact Or.inl h2
      · exact Or.inr ⟨pid', by simp [h1], h2, h3⟩
    · cases hl : dictGet? pbid pid with
      | none =>
        rw [libExpand, if_neg hu, hl] at h
        exact absurd h (by simp)
      | some p =>
        simp only [libExpand, if_neg hu, hl] at h
        rcases ih _ _ h q hq with h2 | ⟨pid', h1, h2, h3⟩
        · rcases List.mem_append.mp h2 with h3 | h3
          · exact Or.inl h3
          · obtain ⟨t, ht, hts⟩ := List.mem_map.mp h3
            obtain ⟨ht1, ht2⟩ := List.mem_filter.mp ht
            refine Or.inr ⟨pid, by simp, fun hmem => hu (contains_iff_mem.mpr hmem), p, hl,
              t, ht1, ht2, hts.symm⟩
        · exact Or.inr ⟨pid', by simp [h1], h2, h3⟩

theorem libExpand_includes {pbid : PyDict Package} {unused : List String} :
    ∀ (ids : List String) (acc libs : List Path) (pid : String) (p : Package) (t : Target),
      libExpand pbid unused ids acc = .ok libs →
      pid ∈ ids → pid ∉ unused → dictGet? pbid pid = some p →
      t ∈ p.targets → is_lib t = true →
      t.src_path ∈ libs := by
  intro ids
  induction ids with
  | nil =>
    intro acc libs pid p t _ hmem
    simp at hmem
  | cons pid0 rest ih =>
    intro acc libs pid p t h hmem hnu hl ht hlib
    rcases List.mem_cons.mp hmem with he | he
    · subst he
      have hu : ¬ unused.contains pid = true := fun hc => hnu (contains_iff_mem.mp hc)
      rw [libExpand, if_neg hu, hl] at h
      refine libExpand_mono rest _ libs h t.src_path ?_
      exact List.mem_append.mpr (Or.inr (List.mem_map.mpr
        ⟨t, List.mem_filter.mpr ⟨ht, hlib⟩, rfl⟩))
    · by_cases hu : unused.contains pid0 = true
      · rw [libExpand, if_pos hu] at h
        exact ih _ _ pid p t h he hnu hl ht hlib
      · cases hl0 : dictGet? pbid pid0 with
        | none =>
          rw [libExpand, if_neg hu, hl0] at h
          exact absurd h (by simp)
        | some p0 =>
          simp only [libExpand, if_neg hu, hl0] at h
          exact ih _ _ pid p t h he hnu hl ht hlib

theorem addByName_mono {pbid : PyDict Package} {name : String} :
    ∀ (ids acc out : List String),
      addByName pbid name ids acc = .ok out → ∀ y ∈ acc, y ∈ out := by
  intro ids
  induction ids with
  | nil =>
    intro acc out h y hy
    simp only [addByName, Except.ok.injEq] at h
    subst h
    exact hy
  | cons pid rest ih =>
    intro acc out h y hy
    cases hl : dictGet? pbid pid with
    | none =>
      rw [addByName, hl] at h
      exact absurd h (by simp)
    | some p =>
      simp only [addByName, hl] at h
      by_cases hc : p.name = name
      · rw [if_pos hc] at h
        exact ih _ _ h y (setAdd_mono hy pid)
      · rw [if_neg hc] at h
        exact ih _ _ h y hy

theorem addByName_adds {pbid : PyDict Package} {name : String} :
    ∀ (ids acc out : List String) (pid : String) (p : Package),
      addByName pbid name ids acc = .ok out →
      pid ∈ ids → dictGet? pbid pid = some p → p.name = name → pid ∈ out := by
  intro ids
  induction ids with
  | nil =>
    intro acc out pid p _ hmem
    simp at hmem
  | cons pid0 rest ih =>
    intro acc out pid p h hmem hl hname
    rcases List.mem_cons.mp hmem with he | he
    · subst he
      simp only [addByName, hl] at h
      rw [if_pos hname] at h
      exact addByName_mono rest _ out h pid (setAdd_self_mem acc pid)
    · cases hl0 : dictGet? pbid pid0 with
      | none =>
        rw [addByName, hl0] at h
        exact absurd h (by simp)
      | some p0 =>
        simp only [addByName, hl0] at h
        by_cases hc : p0.name = name
        · rw [if_pos hc] at h
          exact ih _ _ pid p h he hl hname
        · rw [if_neg hc] at h
          exact ih _ _ pid p h he hl hname

theorem addByName_err {pbid : PyDict Package} {name : String} :
    ∀ (ids acc : List String) (e : PyErr),
      addByName pbid name ids acc = .error e → ∃ k, e = .keyError k := by
  intro ids
  induction ids with
  | nil =>
    intro acc e h
    exact absurd h (by simp [addByName])
  | cons pid rest ih =>
    intro acc e h
    cases hl : dictGet? pbid pid with
    | none =>
      rw [addByName, hl] at h
      simp only [Except.error.injEq] at h
      exact ⟨pid, h.symm⟩
    | some p =>
      simp only [addByName, hl] at h
      by_cases hc : p.name = name
      · rw [if_pos hc] at h
        exact ih _ e h
      · rw [if_neg hc] at h
        exact ih _ e h

theorem addUnusedName_mono {pbid : PyDict Package} {deps : PyDict String}
    {renames acc out : List String} {name : String}
    (h : addUnusedName pbid deps renames acc name = .ok out) :
    ∀ y ∈ acc, y ∈ out := by
  unfold addUnusedName at h
  split at h
  · cases hl : dictGet? deps name with
    | none =>
      rw [hl] at h
      exact absurd h (by simp)
    | some pid =>
      rw [hl] at h
      simp only [Except.ok.injEq] at h
      subst h
      exact fun y hy => setAdd_mono hy pid
  · exact addByName_mono _ _ _ h

theorem addUnusedName_err {pbid : PyDict Package} {deps : PyDict String}
    {renames acc : List String} {name : String} {e : PyErr}
    (h : addUnusedName pbid deps renames acc name = .error e) :
    ∃ k, e = .keyError k := by
  unfold addUnusedName at h
  split at h
  · cases hl : dictGet? deps name with
    | none =>
      rw [hl] at h
      simp only [Except.error.injEq] at h
      exact ⟨name, h.symm⟩
    | some pid =>
      rw [hl] at h
      exact absurd h (by simp)
  · exact addByName_err _ _ e h

theorem addUnusedNames_mono {pbid : PyDict Package} {deps : PyDict String}
    {renames : List String} :
    ∀ (names : List String) (acc out : List String),
      addUnusedNames pbid deps renames names acc = .ok out → ∀ y ∈ acc, y ∈ out := by
  intro names
  induction names with
  | nil =>
    intro acc out h y hy
    simp only [addUnusedNames, Except.ok.injEq] at h
    subst h
    exact hy
  | cons n rest ih =>
    intro acc out h y hy
    cases hn : addUnusedName pbid deps renames acc n with
    | error e =>
      rw [addUnusedNames, hn] at h
      exact absurd h (by simp)
    | ok acc2 =>
      rw [addUnusedNames, hn] at h
      exact ih _ _ h y (addUnusedName_mono hn y hy)

theorem addUnusedNames_err {pbid : PyDict Package} {deps : PyDict String}
    {renames : List String} :
    ∀ (names : List String) (acc : List String) (e : PyErr),
      addUnusedNames pbid deps renames names acc = .error e → ∃ k, e = .keyError k := by
  intro names
  induction names with
  | nil =>
    intro acc e h
    exact absurd h (by simp [addUnusedNames])
  | cons n rest ih =>
    intro acc e h
    cases hn : addUnusedName pbid deps renames acc n with
    | error e2 =>
      rw [addUnusedNames, hn] at h
      simp only [Except.error.injEq] at h
      exact h ▸ addUnusedName_err hn
    | ok acc2 =>
      rw [addUnusedNames, hn] at h
      exact ih _ e h

theorem addUnusedNames_adds_rename {pbid : PyDict Package} {deps : PyDict String}
    {renames : List String} {name pid : String} :
    ∀ (names : List String) (acc out : List String),
      addUnusedNames pbid deps renames names acc = .ok out →
      name ∈ names → renames.contains name = true → dictGet? deps name = some pid →
      pid ∈ out := by
  intro names
  induction names with
  | nil =>
    intro acc out _ hmem
    simp at hmem
  | cons n rest ih =>
    intro acc out h hmem hren hl
    cases hn : addUnusedName pbid deps renames acc n with
    | error e =>
      rw [addUnusedNames, hn] at h
      exact absurd h (by simp)
    | ok acc2 =>
      rw [addUnusedNames, hn] at h
      rcases List.mem_cons.mp hmem with he | he
      · subst he
        unfold addUnusedName at hn
        rw [if_pos hren, hl] at hn
        simp only [Except.ok.injEq] at hn
        exact addUnusedNames_mono rest _ _ h pid (hn ▸ setAdd_self_mem acc pid)
      · exact ih _ _ h he hren hl

theorem addUnusedNames_adds_byname {pbid : PyDict Package} {deps : PyDict String}
    {renames : List String} {name pid : String} {p : Package} :
    ∀ (names : List String) (acc out : List String),
      addUnusedNames pbid deps renames names acc = .ok out →
      name ∈ names → renames.contains name = false →
      pid ∈ dictValues deps → dictGet? pbid pid = some p → p.name = name →
      pid ∈ out := by
  intro names
  induction names with
  | nil =>
    intro acc out _ hmem
    simp at hmem
  | cons n rest ih =>
    intro acc out h hmem hren hv hl hname
    cases hn : addUnusedName pbid deps renames acc n with
    | error e =>
      rw [addUnusedNames, hn] at h
      exact absurd h (by simp)
    | ok acc2 =>
      rw [addUnusedNames, hn] at h
      rcases List.mem_cons.mp hmem with he | he
      · subst he
        unfold addUnusedName at hn
        rw [if_neg (by rw [hren]; exact Bool.false_ne_true)] at hn
        exact addUnusedNames_mono rest _ _ h pid
          (addByName_adds _ _ _ pid p hn hv hl hname)
      · exact ih _ _ h he hren hv hl hname

theorem processUnusedDeps_mono {pbid : PyDict Package} {deps : PyDict String}
    {renames : List String} {mp : Path} :
    ∀ (entries : List UnusedDep) (acc out : List String),
      processUnusedDeps pbid deps renames mp entries acc = .ok out →
      ∀ y ∈ acc, y ∈ out := by
  intro entries
  induction entries with
  | nil =>
    intro acc out h y hy
    simp only [processUnusedDeps, Except.ok.injEq] at h
    subst h
    exact hy
  | cons e0 rest ih =>
    intro acc out h y hy
    by_cases hm : e0.manifest_path = mp
    · rw [processUnusedDeps, if_pos hm] at h
      cases hn : addUnusedNames pbid deps renames (e0.normal ++ e0.build) acc with
      | error e2 =>
        rw [hn] at h
        exact absurd h (by simp)
      | ok acc2 =>
        rw [hn] at h
        exact ih _ _ h y (addUnusedNames_mono _ _ _ hn y hy)
    · rw [processUnusedDeps, if_neg hm] at h
      exact ih _ _ h y hy

theorem processUnusedDeps_err {pbid : PyDict Package} {deps : PyDict String}
    {renames : List String} {mp : Path} :
    ∀ (entries : List UnusedDep) (acc : List String) (e : PyErr),
      processUnusedDeps pbid deps renames mp entries acc = .error e →
      ∃ k, e = .keyError k := by
  intro entries
  induction entries with
  | nil =>
    intro acc e h
    exact absurd h (by simp [processUnusedDeps])
  | cons e0 rest ih =>
    intro acc e h
    by_cases hm : e0.manifest_path = mp
    · rw [processUnusedDeps, if_pos hm] at h
      cases hn : addUnusedNames pbid deps renames (e0.normal ++ e0.build) acc with
      | error e2 =>
        rw [hn] at h
        simp only [Except.error.injEq] at h
        exact h ▸ addUnusedNames_err _ _ e2 hn
      | ok acc2 =>
        rw [hn] at h
        exact ih _ e h
    · rw [processUnusedDeps, if_neg hm] at h
      exact ih _ e h

theorem processUnusedDeps_adds_rename {pbid : PyDict Package} {deps : PyDict String}
    {renames : List String} {mp : Path} {name pid : String} :
    ∀ (entries : List UnusedDep) (acc out : List String) (e0 : UnusedDep),
      processUnusedDeps pbid deps renames mp entries acc = .ok out →
      e0 ∈ entries → e0.manifest_path = mp → name ∈ e0.normal ++ e0.build →
      renames.contains name = true → dictGet? deps name = some pid →
      pid ∈ out := by
  intro entries
  induction entries with
  | nil =>
    intro acc out e0 _ hmem
    simp at hmem
  | cons e1 rest ih =>
    intro acc out e0 h hmem hmp hname hren hl
    rcases List.mem_cons.mp hmem with he | he
    · subst he
      rw [processUnusedDeps, if_pos hmp] at h
      cases hn : addUnusedNames pbid deps renames (e0.normal ++ e0.build) acc with
      | error e2 =>
        rw [hn] at h
        exact absurd h (by simp)
      | ok acc2 =>
        rw [hn] at h
        exact processUnusedDeps_mono _ _ _ h pid
          (addUnusedNames_adds_rename _ _ _ hn hname hren hl)
    · by_cases hm : e1.manifest_path = mp
      · rw [processUnusedDeps, if_pos hm] at h
        cases hn : addUnusedNames pbid deps renames (e1.normal ++ e1.build) acc with
        | error e2 =>
          rw [hn] at h
          exact absurd h (by simp)
        | ok acc2 =>
          rw [hn] at h
          exact ih _ _ e0 h he hmp hname hren hl
      · rw [processUnusedDeps, if_neg hm] at h
        exact ih _ _ e0 h he hmp hname hren hl

theorem processUnusedDeps_adds_byname {pbid : PyDict Package} {deps : PyDict String}
    {renames : List String} {mp : Path} {name pid : String} {p : Package} :
    ∀ (entries : List UnusedDep) (acc out : List String) (e0 : UnusedDep),
      processUnusedDeps pbid deps renames mp entries acc = .ok out →
      e0 ∈ entries → e0.manifest_path = mp → name ∈ e0.normal ++ e0.build →
      renames.contains name = false →
      pid ∈ dictValues deps → dictGet? pbid pid = some p → p.name = name →
      pid ∈ out := by
  intro entries
  induction entries with
  | nil =>
    intro acc out e0 _ hmem
    simp at hmem
  | cons e1 rest ih =>
    intro acc out e0 h hmem hmp hname hren hv hl hpn
    rcases List.mem_cons.mp hmem with he | he
    · subst he
      rw [processUnusedDeps, if_pos hmp] at h
      cases hn : addUnusedNames pbid deps renames (e0.normal ++ e0.build) acc with
      | error e2 =>
        rw [hn] at h
        exact absurd h (by simp)
      | ok acc2 =>
        rw [hn] at h
        exact processUnusedDeps_mono _ _ _ h pid
          (addUnusedNames_adds_byname _ _ _ hn hname hren hv hl hpn)
    · by_cases hm : e1.manifest_path = mp
      · rw [processUnusedDeps, if_pos hm] at h
        cases hn : addUnusedNames pbid deps renames (e1.normal ++ e1.build) acc with
        | error e2 =>
          rw [hn] at h
          exact absurd h (by simp)
        | ok acc2 =>
          rw [hn] at h
          exact ih _ _ e0 h he hmp hname hren hv hl hpn
      · rw [processUnusedDeps, if_neg hm] at h
        exact ih _ _ e0 h he hmp hname hren hv hl hpn

theorem scanDFiles_some {ws path : Path} :
    ∀ (l : List DFile) (rem : List Path),
      (scanDFiles ws path l).1 = some rem →
      ∃ pre f post, l = pre ++ f :: post ∧
        (∀ g ∈ pre, (parseDFile ws g).take 1 ≠ [path]) ∧
        (parseDFile ws f).take 1 = [path] ∧
        rem = (parseDFile ws f).drop 1 := by
  intro l
  induction l with
  | nil =>
    intro rem h
    simp [scanDFiles] at h
  | cons f0 rest ih =>
    intro rem h
    by_cases hm : (parseDFile ws f0).take 1 = [path]
    · rw [scanDFiles, if_pos hm] at h
      simp only [Option.some.injEq] at h
      exact ⟨[], f0, rest, by simp, by simp, hm, h.symm⟩
    · rw [scanDFiles, if_neg hm] at h
      simp only at h
      obtain ⟨pre, f, post, hsplit, hpre, hf, hrem⟩ := ih rem h
      refine ⟨f0 :: pre, f, post, by simp [hsplit], ?_, hf, hrem⟩
      intro g hg
      rcases List.mem_cons.mp hg with he | he
      · exact he ▸ hm
      · exact hpre g he

theorem generatedLoop_of_exists {fs : List Path} :
    ∀ (abs : Bool) (ps : List String),
      (∃ x ∈ parentsRev abs ps,
        pathExists fs (x.parent.join cargoTomlRel) = true ∧
        x.partsPy.getLast? = some "target") →
      generatedLoop fs (parentsRev abs ps) = .ok true := by
  intro abs ps
  induction ps with
  | nil =>
    rintro ⟨x, hx, -⟩
    simp [parentsRev] at hx
  | cons a rest ih =>
    rintro ⟨x, hx, hex, hlast⟩
    rw [parentsRev]
    rcases List.mem_cons.mp hx with he | he
    · subst he
      rw [generatedLoop, if_pos hex, hlast]
      show (if "target" = "target" then (Except.ok true : Except PyErr Bool)
          else generatedLoop fs (parentsRev abs rest)) = Except.ok true
      rw [if_pos rfl]
    · by_cases hq : pathExists fs ((Path.mk abs rest.reverse).parent.join cargoTomlRel) = true
      · rw [generatedLoop, if_pos hq]
        cases hl : (Path.mk abs rest.reverse).partsPy.getLast? with
        | none =>
          exfalso
          have hempty : (Path.mk abs rest.reverse).partsPy = [] :=
            List.getLast?_eq_none_iff.mp hl
          simp only [Path.partsPy] at hempty
          cases abs with
          | true => simp at hempty
          | false =>
            have hrest : rest = [] := by simpa using hempty
            subst hrest
            simp [parentsRev] at he
        | some last =>
          show (if last = "target" then (Except.ok true : Except PyErr Bool)
              else generatedLoop fs (parentsRev abs rest)) = Except.ok true
          by_cases hlt : last = "target"
          · rw [if_pos hlt]
          · rw [if_neg hlt]
            exact ih ⟨x, he, hex, hlast⟩
      · rw [generatedLoop, if_neg hq]
        exact ih ⟨x, he, hex, hlast⟩

theorem resolveFoundTarget_ok_shape
    {mf : Nat} {co : Bool} {dF : List DFile} {uw : Bool}
    {up : Option (List UnusedDep)} {md : Metadata} {package : Package}
    {target : Target} {path : Path} {tc : Option String} {l : List Path}
    (h : (resolveFoundTarget mf co dF uw up md package target path tc).2 = .ok l) :
    co = true ∧
    ∃ deps unused libs,
      normal_build_node_deps_of md package target = .ok deps ∧
      (unused_packages_of (packages_by_id_of md) package target deps uw up tc).2 =
        .ok unused ∧
      libExpand (packages_by_id_of md) unused (dictValues deps) [] = .ok libs ∧
      l = pySorted ((path :: (scanDFiles md.workspace_root path
        (sortDFilesDesc (dF.filter fun f =>
          dFilePattern target.name f.fileName))).1.getD []) ++ libs) := by
  unfold resolveFoundTarget at h
  by_cases hco : co = false
  · rw [if_pos hco] at h
    exact absurd h (by simp)
  · have hco2 : co = true := by revert hco; cases co <;> simp
    rw [if_neg hco] at h
    refine ⟨hco2, ?_⟩
    cases hd : normal_build_node_deps_of md package target with
    | error e => simp [hd] at h
    | ok deps =>
      simp only [hd] at h
      cases hu : (unused_packages_of (packages_by_id_of md) package target deps uw
          up tc).2 with
      | error e => simp [hu] at h
      | ok unused =>
        simp only [hu] at h
        cases hl : libExpand (packages_by_id_of md) unused (dictValues deps) [] with
        | error e => simp [hl] at h
        | ok libs =>
          simp only [hl, Except.ok.injEq] at h
          exact ⟨deps, unused, libs, rfl, hu, hl, h.symm⟩

theorem resolveFoundTarget_warnings
    {mf : Nat} {dF : List DFile} {uw : Bool} {up : Option (List UnusedDep)}
    {md : Metadata} {package : Package} {target : Target} {path : Path}
    {tc : Option String}
    (hscan : (scanDFiles md.workspace_root path
      (sortDFilesDesc (dF.filter fun f => dFilePattern target.name f.fileName))).1 =
        none) :
    (resolveFoundTarget mf true dF uw up md package target path tc).1.warnings =
      [noDFileWarning path] := by
  unfold resolveFoundTarget
  rw [if_neg (by simp)]
  simp only [hscan]
  cases hd : normal_build_node_deps_of md package target with
  | error e => simp [hd]
  | ok deps =>
    simp only [hd]
    cases hu : (unused_packages_of (packages_by_id_of md) package target deps uw
        up tc).2 with
    | error e => simp [hu]
    | ok unused =>
      simp only [hu]
      cases hl : libExpand (packages_by_id_of md) unused (dictValues deps) [] with
      | error e => simp [hl]
      | ok libs => simp [hl]

theorem resolveFoundTarget_error_indep
    {mf : Nat} {co : Bool} {uw : Bool} {up : Option (List UnusedDep)}
    {md : Metadata} {package : Package} {target : Target} {path : Path}
    {tc : Option String} (dX dY : List DFile) (e : PyErr) :
    (resolveFoundTarget mf co dX uw up md package target path tc).2 = .error e ↔
    (resolveFoundTarget mf co dY uw up md package target path tc).2 = .error e := by
  unfold resolveFoundTarget
  by_cases hco : co = false
  · rw [if_pos hco, if_pos hco]
  · rw [if_neg hco, if_neg hco]
    cases hd : normal_build_node_deps_of md package target with
    | error e2 => simp [hd]
    | ok deps =>
      simp only [hd]
      cases hu : (unused_packages_of (packages_by_id_of md) package target deps uw
          up tc).2 with
      | error e2 => simp [hu]
      | ok unused =>
        simp only [hu]
        cases hl : libExpand (packages_by_id_of md) unused (dictValues deps) [] with
        | error e2 => simp [hl]
        | ok libs => simp [hl]

theorem ldc_ok_shape {env : Env} {path0 basedir : Path} {tc : Option String}
    {l : List Path}
    (h : (list_dependencies_by_crate env path0 basedir tc).2 = .ok l) :
    l = [basedir.join path0] ∨
    ∃ md n package target,
      cargo_metadata env.fs env.metadataFor (basedir.join path0).parent =
        .ok (md, n) ∧
      find_target md (basedir.join path0) = some (package, target) ∧
      (resolveFoundTarget n env.checkOk env.dFiles env.udepsWhich env.udepsParsed
        md package target (basedir.join path0) tc).2 = .ok l := by
  unfold list_dependencies_by_crate at h
  cases hg : generatedLoop env.fs (basedir.join path0).parents with
  | error e => simp [hg] at h
  | ok b =>
    cases b with
    | true =>
      simp only [hg, Except.ok.injEq] at h
      exact Or.inl h.symm
    | false =>
      simp only [hg] at h
      cases hm : cargo_metadata env.fs env.metadataFor (basedir.join path0).parent with
      | error e => simp [hm] at h
      | ok pr =>
        obtain ⟨md, n⟩ := pr
        simp only [hm] at h
        cases hf : find_target md (basedir.join path0) with
        | none =>
          simp only [hf, Except.ok.injEq] at h
          exact Or.inl h.symm
        | some pt =>
          obtain ⟨package, target⟩ := pt
          simp only [hf] at h
          exact Or.inr ⟨md, n, package, target, rfl, hf, h⟩

theorem cargo_metadata_fetches {fs : List Path} {fetch : Path → Metadata}
    {cwd : Path} {md : Metadata} {n : Nat}
    (h : cargo_metadata fs fetch cwd = .ok (md, n)) : n = 1 := by
  unfold cargo_metadata at h
  cases hm : find_root_manifest_for_wd fs cwd with
  | none => simp [hm] at h
  | some mp =>
    simp only [hm] at h
    unfold cacheGetOrFetch at h
    simp only [List.find?] at h
    simp at h
    exact h.2.symm

theorem unused_packages_of_jsonError
    {pbid : PyDict Package} {package : Package} {target : Target}
    {deps : PyDict String} {up : Option (List UnusedDep)} {s : String}
    (hbin : is_bin_or_example_bin target = true) :
    (unused_packages_of pbid package target deps true up (some s)).2 =
      .error .jsonError ↔ up = none := by
  unfold unused_packages_of
  rw [if_pos hbin]
  rw [if_neg (by simp)]
  cases up with
  | none => simp
  | some entries =>
    simp only
    constructor
    · intro h
      obtain ⟨k, hk⟩ := processUnusedDeps_err entries [] _ h
      simp at hk
    · intro h
      exact absurd h (by simp)

theorem normal_build_node_deps_of_shape {md : Metadata} {package : Package}
    {target : Target} {deps : PyDict String}
    (h : normal_build_node_deps_of md package target = .ok deps) :
    ∃ d, buildNodeDeps (packages_by_id_of md) (candNodeDeps md package) [] = .ok d ∧
      deps = (if is_bin_or_example_bin target && package.targets.any is_lib then
        dictInsert d package.name package.id else d) := by
  unfold normal_build_node_deps_of at h
  cases hb : buildNodeDeps (packages_by_id_of md) (candNodeDeps md package) [] with
  | error e => simp [hb] at h
  | ok d =>
    simp only [hb, Except.ok.injEq] at h
    exact ⟨d, rfl, h.symm⟩

theorem mem_values_pair {α : Type} {d : PyDict α} {v : α}
    (h : v ∈ dictValues d) : ∃ k, (k, v) ∈ d := by
  obtain ⟨pr, hpr, h2⟩ := List.mem_map.mp h
  refine ⟨pr.1, ?_⟩
  rw [← h2]
  exact hpr

theorem unused_packages_of_some {pbid : PyDict Package} {package : Package}
    {target : Target} {deps : PyDict String} {entries : List UnusedDep}
    {s : String} {unused : List String}
    (hbin : is_bin_or_example_bin target = true)
    (h : (unused_packages_of pbid package target deps true (some entries)
      (some s)).2 = .ok unused) :
    processUnusedDeps pbid deps (renamesOf package) package.manifest_path
      entries [] = .ok unused := by
  unfold unused_packages_of at h
  rw [if_pos hbin, if_neg (by simp)] at h
  exact h

/-! ## Claims -/

/-- C1, counterexample: on `envDup` the resolution returns normally with a
result list containing `/w/src/foo.rs` twice — `sorted(ret)` on line 133
sorts but does not deduplicate — refuting the claim that a normally returned
list contains no duplicate paths. -/
theorem c1_counterexample :
    (list_dependencies_by_crate envDup ⟨false, ["src", "main.rs"]⟩ wRoot none).2 =
      .ok [wFoo, wFoo, wMain] ∧
    ¬ ([wFoo, wFoo, wMain] : List Path).Nodup :=
  ⟨by decide, by decide⟩

/-- C1, amended: every list returned normally by
`_list_dependencies_by_crate` is sorted lexicographically, independent of
the order in which dependency-list artifacts or analyzer entries were
discovered — but duplicates are not removed. -/
theorem c1_amended_sorted (env : Env) (path0 basedir : Path) (tc : Option String)
    (l : List Path)
    (h : (list_dependencies_by_crate env path0 basedir tc).2 = .ok l) :
    l.Sorted pathLe := by
  rcases ldc_ok_shape h with he | ⟨md, n, package, target, hm, hf, hr⟩
  · subst he
    exact List.sorted_singleton _
  · obtain ⟨-, deps, unused, libs, -, -, -, hl⟩ := resolveFoundTarget_ok_shape hr
    subst hl
    exact pySorted_sorted _

/-- Witness for the amended C1 at a concrete input. -/
theorem c1_amended_sorted_witness :
    ([wFoo, wFoo, wMain] : List Path).Sorted pathLe :=
  c1_amended_sorted envDup ⟨false, ["src", "main.rs"]⟩ wRoot none _ (by decide)

/-- C2: the `lru_cache`-decorated helper is created afresh inside every
`_cargo_metadata` call, so each successful call fetches exactly once and two
calls resolving the same manifest spawn two metadata processes — the claimed
at-most-one-process-per-manifest-path over the process lifetime fails. -/
theorem c2_metadata_refetches (fs : List Path) (fetch : Path → Metadata)
    (cwd : Path) (md1 md2 : Metadata) (n1 n2 : Nat)
    (h1 : cargo_metadata fs fetch cwd = .ok (md1, n1))
    (h2 : cargo_metadata fs fetch cwd = .ok (md2, n2)) :
    n1 + n2 = 2 := by
  rw [cargo_metadata_fetches h1, cargo_metadata_fetches h2]

/-- Witness for C2 at a concrete input. -/
theorem c2_metadata_refetches_witness : 1 + 1 = 2 :=
  c2_metadata_refetches [wManifest] (fun _ => mdPlain) ⟨true, ["w", "src"]⟩
    mdPlain mdPlain 1 1 (by decide) (by decide)

/-- C5: on well-formed cargo metadata (which emits `crate_types`, never
`crate_type`), the example-but-not-binary branch of
`_find_bin_or_example_bin` raises `KeyError('crate_type')` while formatting
its message, instead of the intended descriptive error; the other wrong-kind
branch raises the intended `RuntimeError`. -/
theorem c5_crate_type_keyerror :
    find_bin_or_example_bin mdExampleLib exLibTarget.src_path =
      .error (.keyError "crate_type") ∧
    find_bin_or_example_bin mdTestKind testTarget.src_path =
      .error (.runtimeError "`t` is not a `bin` or `example` target") :=
  ⟨by decide, by decide⟩

/-- C8: when some ancestor directory named `target` has a manifest next to
it (in its parent), `_list_dependencies_by_crate` returns exactly the
queried path with the generated-file warning, fetching no metadata, running
no build and opening no dependency artifact. -/
theorem c8_generated_short_circuit (env : Env) (path0 basedir : Path)
    (tc : Option String)
    (h : ∃ parent ∈ (basedir.join path0).parents,
      pathExists env.fs (parent.parent.join cargoTomlRel) = true ∧
      parent.partsPy.getLast? = some "target") :
    list_dependencies_by_crate env path0 basedir tc =
      ({ metadataFetches := 0, checkRuns := 0, dFilesOpened := 0, udepsRuns := 0,
         warnings := [generatedWarning (basedir.join path0)] },
       .ok [basedir.join path0]) := by
  have hg : generatedLoop env.fs (basedir.join path0).parents = .ok true :=
    generatedLoop_of_exists (basedir.join path0).absolute
      (basedir.join path0).parts.reverse h
  unfold list_dependencies_by_crate
  simp only [hg]

/-- Witness for C8 at a concrete input. -/
theorem c8_generated_short_circuit_witness :
    list_dependencies_by_crate envNoD ⟨false, ["target", "debug", "gen.rs"]⟩
        wRoot none =
      ({ metadataFetches := 0, checkRuns := 0, dFilesOpened := 0, udepsRuns := 0,
         warnings := [generatedWarning (wRoot.join ⟨false, ["target", "debug", "gen.rs"]⟩)] },
       .ok [wRoot.join ⟨false, ["target", "debug", "gen.rs"]⟩]) :=
  c8_generated_short_circuit envNoD ⟨false, ["target", "debug", "gen.rs"]⟩
    wRoot none (by decide)

/-- C9: every list returned normally by `_list_dependencies_by_crate`
contains the queried file joined against the base directory, on all three
paths through the algorithm. -/
theorem c9_self_inclusion (env : Env) (path0 basedir : Path) (tc : Option String)
    (l : List Path)
    (h : (list_dependencies_by_crate env path0 basedir tc).2 = .ok l) :
    basedir.join path0 ∈ l := by
  rcases ldc_ok_shape h with he | ⟨md, n, package, target, hm, hf, hr⟩
  · subst he
    exact List.mem_singleton.mpr rfl
  · obtain ⟨-, deps, unused, libs, -, -, -, hl⟩ := resolveFoundTarget_ok_shape hr
    subst hl
    exact mem_pySorted.mpr (List.mem_append.mpr (Or.inl (List.mem_cons_self _ _)))

/-- Witness for C9 at a concrete input. -/
theorem c9_self_inclusion_witness :
    wRoot.join ⟨false, ["src", "main.rs"]⟩ ∈ ([wFoo, wFoo, wMain] : List Path) :=
  c9_self_inclusion envDup ⟨false, ["src", "main.rs"]⟩ wRoot none _ (by decide)

/-- C10: the analyzer's exit status is never read — the whole resolution is
invariant under changing it — and, with the backend enabled, the analyzer on
`$PATH` and a binary-like target, the analyzer step fails with the
JSON-parse error exactly when the analyzer's standard output does not parse
as a document with an `unused_deps` mapping. -/
theorem c10_udeps_exit_status_ignored :
    (∀ (env : Env) (rc : Int) (path0 basedir : Path) (tc : Option String),
      list_dependencies_by_crate { env with udepsReturncode := rc } path0 basedir tc =
        list_dependencies_by_crate env path0 basedir tc) ∧
    (∀ (pbid : PyDict Package) (package : Package) (target : Target)
        (deps : PyDict String) (up : Option (List UnusedDep)) (s : String),
      is_bin_or_example_bin target = true →
      ((unused_packages_of pbid package target deps true up (some s)).2 =
          .error .jsonError ↔ up = none)) :=
  ⟨fun _ _ _ _ _ => rfl,
   fun _ _ _ _ _ _ hbin => unused_packages_of_jsonError hbin⟩

/-- Witness for C10 at a concrete input. -/
theorem c10_udeps_exit_status_ignored_witness :
    (unused_packages_of (packages_by_id_of mdDeps) appPkgDeps appTargetBin
      [("bar", "foo-id"), ("baz", "baz-id")] true none (some "x")).2 =
      .error .jsonError :=
  (c10_udeps_exit_status_ignored.2 (packages_by_id_of mdDeps) appPkgDeps
    appTargetBin [("bar", "foo-id"), ("baz", "baz-id")] none "x" (by decide)).mpr rfl

/-- C4: the dependency artifacts matching the target's pattern are examined
sorted by decreasing modification time; the accepted artifact is the first
whose leading parsed entry equals the queried path, contributing exactly its
remaining entries; when none matches, the warning is emitted and the step
contributes only the queried file; and whether resolution fails never
depends on the artifacts. -/
theorem c4_artifact_selection (mf : Nat) (dF : List DFile) (uw : Bool)
    (up : Option (List UnusedDep)) (md : Metadata) (package : Package)
    (target : Target) (path : Path) (tc : Option String) :
    ((sortDFilesDesc (dF.filter fun f => dFilePattern target.name f.fileName)).Sorted
        mtimeGe ∧
      List.Perm
        (sortDFilesDesc (dF.filter fun f => dFilePattern target.name f.fileName))
        (dF.filter fun f => dFilePattern target.name f.fileName)) ∧
    (∀ rem, (scanDFiles md.workspace_root path (sortDFilesDesc
        (dF.filter fun f => dFilePattern target.name f.fileName))).1 = some rem →
      ∃ pre f post,
        sortDFilesDesc (dF.filter fun f => dFilePattern target.name f.fileName) =
          pre ++ f :: post ∧
        (∀ g ∈ pre, (parseDFile md.workspace_root g).take 1 ≠ [path]) ∧
        (parseDFile md.workspace_root f).take 1 = [path] ∧
        rem = (parseDFile md.workspace_root f).drop 1) ∧
    ((scanDFiles md.workspace_root path (sortDFilesDesc
        (dF.filter fun f => dFilePattern target.name f.fileName))).1 = none →
      (resolveFoundTarget mf true dF uw up md package target path tc).1.warnings =
        [noDFileWarning path] ∧
      ∀ l, (resolveFoundTarget mf true dF uw up md package target path tc).2 =
          .ok l →
        ∃ deps unused libs,
          normal_build_node_deps_of md package target = .ok deps ∧
          (unused_packages_of (packages_by_id_of md) package target deps uw up
            tc).2 = .ok unused ∧
          libExpand (packages_by_id_of md) unused (dictValues deps) [] = .ok libs ∧
          l = pySorted (path :: libs)) ∧
    (∀ (dY : List DFile) (e : PyErr),
      (resolveFoundTarget mf true dF uw up md package target path tc).2 =
          .error e ↔
      (resolveFoundTarget mf true dY uw up md package target path tc).2 =
          .error e) := by
  refine ⟨⟨sortDFilesDesc_sorted _, sortDFilesDesc_perm _⟩,
    fun rem h => scanDFiles_some _ rem h,
    fun hnone => ⟨resolveFoundTarget_warnings hnone, ?_⟩,
    fun dY e => resolveFoundTarget_error_indep dF dY e⟩
  intro l hl
  obtain ⟨-, deps, unused, libs, h1, h2, h3, h4⟩ := resolveFoundTarget_ok_shape hl
  refine ⟨deps, unused, libs, h1, h2, h3, ?_⟩
  rw [h4, hnone]
  simp

/-- Witness for C4 at a concrete input. -/
theorem c4_artifact_selection_witness :
    (resolveFoundTarget 1 true [] false none mdPlain appPkg appTargetBin wMain
      none).1.warnings = [noDFileWarning wMain] :=
  ((c4_artifact_selection 1 [] false none mdPlain appPkg appTargetBin wMain
    none).2.2.1 (by decide)).1

/-- C6: every element of a normally returned result is the queried path, an
entry of the matched dependency artifact, a library entry point of a
path/workspace-local package (falsy `source`), or a library entry point of
the owning package itself (the implicit self-library, inserted without a
source check) — so a dependency package from a non-local source never
contributes entry-point paths, regardless of the analyzer's output. -/
theorem c6_external_source_exclusion (mf : Nat) (co : Bool) (dF : List DFile)
    (uw : Bool) (up : Option (List UnusedDep)) (md : Metadata)
    (package : Package) (target : Target) (path : Path) (tc : Option String)
    (l : List Path)
    (h : (resolveFoundTarget mf co dF uw up md package target path tc).2 = .ok l) :
    ∀ q ∈ l,
      q = path ∨
      q ∈ (scanDFiles md.workspace_root path (sortDFilesDesc
        (dF.filter fun f => dFilePattern target.name f.fileName))).1.getD [] ∨
      (∃ p t, p ∈ md.packages ∧ strFalsy p.source = true ∧ t ∈ p.targets ∧
        is_lib t = true ∧ q = t.src_path) ∨
      (∃ p t, dictGet? (packages_by_id_of md) package.id = some p ∧
        t ∈ p.targets ∧ is_lib t = true ∧ q = t.src_path) := by
  intro q hq
  obtain ⟨-, deps, unused, libs, hdeps, hunu, hlibs, hl⟩ :=
    resolveFoundTarget_ok_shape h
  subst hl
  rcases List.mem_append.mp (mem_pySorted.mp hq) with h1 | h1
  · rcases List.mem_cons.mp h1 with h2 | h2
    · exact Or.inl h2
    · exact Or.inr (Or.inl h2)
  · rcases libExpand_mem _ _ _ hlibs q h1 with h2 |
      ⟨pid, hpid, hnu, p, hlook, t, ht, hlib, hq2⟩
    · simp at h2
    · obtain ⟨d, hb, hdef⟩ := normal_build_node_deps_of_shape hdeps
      subst hdef
      have hval : pid ∈ dictValues d ∨ pid = package.id := by
        by_cases hc : (is_bin_or_example_bin target &&
            package.targets.any is_lib) = true
        · rw [if_pos hc] at hpid
          exact mem_values_dictInsert _ hpid
        · rw [if_neg hc] at hpid
          exact Or.inl hpid
      rcases hval with hv | hv
      · obtain ⟨k, hk⟩ := mem_values_pair hv
        rcases buildNodeDeps_pairs _ _ _ hb (k, pid) hk with habs |
          ⟨nd, hnd, hpr, p2, hlook2, hsrc2, -⟩
        · simp at habs
        · have hpid2 : pid = nd.pkg := congrArg Prod.snd hpr
          rw [← hpid2, hlook] at hlook2
          have hp2 : p = p2 := by
            simpa using hlook2
          refine Or.inr (Or.inr (Or.inl ⟨p, t, (packages_by_id_lookup hlook).1,
            ?_, ht, hlib, hq2⟩))
          rw [hp2]
          exact hsrc2
      · subst hv
        exact Or.inr (Or.inr (Or.inr ⟨p, t, hlook, ht, hlib, hq2⟩))

/-- Witness for C6 at a concrete input. -/
theorem c6_external_source_exclusion_witness :
    bazLib.src_path = wMain ∨
    bazLib.src_path ∈ (scanDFiles mdDeps.workspace_root wMain (sortDFilesDesc
      (([] : List DFile).filter fun f =>
        dFilePattern appTargetBin.name f.fileName))).1.getD [] ∨
    (∃ p t, p ∈ mdDeps.packages ∧ strFalsy p.source = true ∧ t ∈ p.targets ∧
      is_lib t = true ∧ bazLib.src_path = t.src_path) ∨
    (∃ p t, dictGet? (packages_by_id_of mdDeps) appPkgDeps.id = some p ∧
      t ∈ p.targets ∧ is_lib t = true ∧ bazLib.src_path = t.src_path) :=
  c6_external_source_exclusion 1 true [] false none mdDeps appPkgDeps
    appTargetBin wMain none [bazLib.src_path, fooLib.src_path, wMain]
    (by decide) bazLib.src_path (by decide)

/-- C7: a path-local normal or build dependency that owns a library target
contributes that library's entry-point source path to the result (even when
the matched artifact never lists it), provided the dependency was not pruned
as unused; and the expansion appends library-kind targets only. -/
theorem c7_library_reexpansion (mf : Nat) (co : Bool) (dF : List DFile)
    (uw : Bool) (up : Option (List UnusedDep)) (md : Metadata)
    (package : Package) (target : Target) (path : Path) (tc : Option String)
    (l : List Path) (deps : PyDict String) (unused : List String)
    (nd : NodeDep) (pB : Package) (t : Target)
    (hrun : (resolveFoundTarget mf co dF uw up md package target path tc).2 = .ok l)
    (hdeps : normal_build_node_deps_of md package target = .ok deps)
    (hunu : (unused_packages_of (packages_by_id_of md) package target deps uw up
      tc).2 = .ok unused)
    (hnd : nd ∈ candNodeDeps md package)
    (hlook : dictGet? (packages_by_id_of md) nd.pkg = some pB)
    (hlocal : strFalsy pB.source = true)
    (hkind : nd.dep_kinds.any depKindNormalOrBuild = true)
    (ht : t ∈ pB.targets) (hlib : is_lib t = true)
    (hnodup : ((candNodeDeps md package).map NodeDep.name).Nodup)
    (hselfname : nd.name ≠ package.name)
    (hnu : nd.pkg ∉ unused) :
    t.src_path ∈ l ∧
    (∀ libs, libExpand (packages_by_id_of md) unused (dictValues deps) [] =
        .ok libs →
      ∀ q ∈ libs, ∃ pid p2 t2, dictGet? (packages_by_id_of md) pid = some p2 ∧
        t2 ∈ p2.targets ∧ is_lib t2 = true ∧ q = t2.src_path) := by
  obtain ⟨-, deps2, unused2, libs, hdeps2, hunu2, hlibs, hl⟩ :=
    resolveFoundTarget_ok_shape hrun
  rw [hdeps] at hdeps2
  have he : deps = deps2 := by simpa using hdeps2
  rw [← he] at hunu2 hlibs
  rw [hunu] at hunu2
  have hu : unused = unused2 := by simpa using hunu2
  rw [← hu] at hlibs
  have hpair : (nd.name, nd.pkg) ∈ deps := by
    obtain ⟨d, hb, hdef⟩ := normal_build_node_deps_of_shape hdeps
    subst hdef
    have hd : (nd.name, nd.pkg) ∈ d :=
      buildNodeDeps_inserts _ _ _ nd pB hb hnd hlook hlocal hkind hnodup
    by_cases hc : (is_bin_or_example_bin target &&
        package.targets.any is_lib) = true
    · rw [if_pos hc]
      exact mem_dictInsert_of_ne hd package.id hselfname
    · rw [if_neg hc]
      exact hd
  constructor
  · subst hl
    refine mem_pySorted.mpr (List.mem_append.mpr (Or.inr ?_))
    exact libExpand_includes _ _ _ nd.pkg pB t hlibs
      (mem_values_of_mem hpair) hnu hlook ht hlib
  · intro libs2 hlibs2 q hq
    rcases libExpand_mem _ _ _ hlibs2 q hq with h2 |
      ⟨pid, hpid, hnu2, p2, hlook2, t2, ht2, hlib2, hq2⟩
    · simp at h2
    · exact ⟨pid, p2, t2, hlook2, ht2, hlib2, hq2⟩

/-- Witness for C7 at a concrete input. -/
theorem c7_library_reexpansion_witness :
    fooLib.src_path ∈ ([bazLib.src_path, fooLib.src_path, wMain] : List Path) :=
  (c7_library_reexpansion 1 true [] false none mdDeps appPkgDeps appTargetBin
    wMain none [bazLib.src_path, fooLib.src_path, wMain]
    [("bar", "foo-id"), ("baz", "baz-id")] []
    { name := "bar", pkg := "foo-id", dep_kinds := [{ kind := none }] }
    fooPkg fooLib
    (by decide) (by decide) (by decide) (by decide) (by decide) (by decide)
    (by decide) (by decide) (by decide) (by decide) (by decide) (by decide)).1

/-- C3: with the cargo-udeps backend enabled on a binary-like target, every
dependency name flagged unused in a report entry for this package's manifest
resolves — through the rename map for aliases, else by package-name lookup —
into the unused set; the library expansion draws only from non-unused ids;
and every non-flagged local dependency's library entry point appears in the
final result. -/
theorem c3_unused_pruning (mf : Nat) (dF : List DFile)
    (entries : List UnusedDep) (md : Metadata) (package : Package)
    (target : Target) (path : Path) (s : String) (l : List Path)
    (deps : PyDict String) (unused : List String) (e0 : UnusedDep)
    (name : String)
    (hrun : (resolveFoundTarget mf true dF true (some entries) md package target
      path (some s)).2 = .ok l)
    (hbin : is_bin_or_example_bin target = true)
    (hdeps : normal_build_node_deps_of md package target = .ok deps)
    (hunu : (unused_packages_of (packages_by_id_of md) package target deps true
      (some entries) (some s)).2 = .ok unused)
    (he : e0 ∈ entries) (hmp : e0.manifest_path = package.manifest_path)
    (hname : name ∈ e0.normal ++ e0.build) :
    ((∀ pid, (renamesOf package).contains name = true →
        dictGet? deps name = some pid → pid ∈ unused) ∧
     (∀ pid p, (renamesOf package).contains name = false →
        pid ∈ dictValues deps → dictGet? (packages_by_id_of md) pid = some p →
        p.name = name → pid ∈ unused)) ∧
    (∀ libs, libExpand (packages_by_id_of md) unused (dictValues deps) [] =
        .ok libs →
      ∀ q ∈ libs, ∃ pid, pid ∈ dictValues deps ∧ pid ∉ unused ∧
        ∃ p, dictGet? (packages_by_id_of md) pid = some p ∧
          ∃ t, t ∈ p.targets ∧ is_lib t = true ∧ q = t.src_path) ∧
    (∀ pid p t, pid ∈ dictValues deps → pid ∉ unused →
      dictGet? (packages_by_id_of md) pid = some p → t ∈ p.targets →
      is_lib t = true → t.src_path ∈ l) := by
  have hproc := unused_packages_of_some hbin hunu
  refine ⟨⟨?_, ?_⟩, ?_, ?_⟩
  · intro pid hren hget
    exact processUnusedDeps_adds_rename _ _ _ e0 hproc he hmp hname hren hget
  · intro pid p hren hv hlook hpn
    exact processUnusedDeps_adds_byname _ _ _ e0 hproc he hmp hname hren hv
      hlook hpn
  · intro libs hlibs q hq
    rcases libExpand_mem _ _ _ hlibs q hq with h2 |
      ⟨pid, hpid, hnu, p, hlook, t, ht, hlib, hq2⟩
    · simp at h2
    · exact ⟨pid, hpid, hnu, p, hlook, t, ht, hlib, hq2⟩
  · intro pid p t hv hnu hlook ht hlib
    obtain ⟨-, deps2, unused2, libs, hdeps2, hunu2, hlibs, hl⟩ :=
      resolveFoundTarget_ok_shape hrun
    rw [hdeps] at hdeps2
    have he : deps = deps2 := by simpa using hdeps2
    rw [← he] at hunu2 hlibs
    rw [hunu] at hunu2
    have hu : unused = unused2 := by simpa using hunu2
    rw [← hu] at hlibs
    subst hl
    refine mem_pySorted.mpr (List.mem_append.mpr (Or.inr ?_))
    exact libExpand_includes _ _ _ pid p t hlibs hv hnu hlook ht hlib

/-- Witness for C3 at a concrete input: the alias-flagged `foo` lands in the
unused set and the non-flagged `baz`'s library entry point appears in the
result. -/
theorem c3_unused_pruning_witness :
    "foo-id" ∈ (["foo-id"] : List String) ∧
    bazLib.src_path ∈ ([bazLib.src_path, wMain] : List Path) := by
  have h := c3_unused_pruning 1 [] [udepsEntry] mdDeps appPkgDeps appTargetBin
    wMain "nightly" [bazLib.src_path, wMain]
    [("bar", "foo-id"), ("baz", "baz-id")] ["foo-id"] udepsEntry "bar"
    (by decide) (by decide) (by decide) (by decide) (by decide) (by decide)
    (by decide)
  refine ⟨h.1.1 "foo-id" (by decide) (by decide), ?_⟩
  exact h.2.2 "baz-id" bazPkg bazLib (by decide) (by decide) (by decide)
    (by decide) (by decide)

end OJV
